import Mathlib

/-!
Verification of the free-churro-scheduler coordination layer.

This file shallowly embeds the parts of the Rust sources that the checked
claims are about, and proves (or refutes) each claim against the embedding:

* `src/database.rs` — the predicated SQL updates `dispatch_task` and
  `complete_task` are modelled as pure functions over an in-memory list of
  task rows (the `tasks` table).  Machine timestamps (`DateTime<Utc>`) are
  modelled as `Int` (seconds); UUIDs (`TaskId`, `WorkerId`) as `Nat`.
* `src/supervisor/workers.rs` — the in-memory worker roster
  (`SupervisedWorkers`): a `BTreeMap<WorkerId, SupervisedWorker>` modelled
  as a key-sorted association list, and a `BTreeSet<WorkerId>` idle-set
  modelled as a sorted list.
* `src/supervisor/tasks.rs` — the pending-tasks priority queue
  (`PendingTasks`): Rust's `BinaryHeap` is modelled as an unordered list
  together with max-selection per the source `Ord` impl (a `BinaryHeap`
  pops a greatest element; elements that compare equal under the source
  `Ord` are fully equal here, so max-selection is observably deterministic).
  A `tokio::time::Sleep` is represented by its deadline `Instant`; the
  monotonic clock is identified with the wall clock passed to `push`, so a
  sleep created as `time::sleep(at - now)` at wall time `now` has deadline
  `at`.  The stored `waker` field is omitted: it only re-schedules the
  enclosing future and has no effect on poll results or queue contents.
* `src/supervisor/notification.rs`, `src/worker/notification.rs` — the
  JSON notification payloads, over a small JSON value type whose scalar
  leaves (`uuid`, `datetime`) stand for the out-of-repo `uuid`/`chrono`
  serde codecs.
-/

/-! ## Task model (src/task.rs) -/

/-- Status enum of `src/task.rs` (`TaskStatus`). -/
inductive TaskStatus where
  | pending
  | dispatched
  | running
  | succeeded
  | failed
  | interrupted
deriving DecidableEq, Repr

/-- Task definition payload of `src/task.rs` (`TaskDef`). -/
inductive TaskDef where
  | foo
  | bar
  | baz
deriving DecidableEq, Repr

/-- One row of the `tasks` table (struct `Task` of `src/task.rs` /
schema of §6).  `id` and `worker_id` are UUIDs modelled as `Nat`;
timestamps are `Int` seconds. -/
structure TaskRow where
  id : Nat
  defn : TaskDef
  worker_id : Option Nat
  status : TaskStatus
  created_at : Int
  updated_at : Int
  scheduled_at : Option Int
deriving DecidableEq, Repr

namespace Database

/-- Row update performed by `Database::dispatch_task`'s SQL
(`set worker_id = $1, status = 'dispatched', updated_at = $2`). -/
def dispatchRow (r : TaskRow) (worker_id : Nat) (updated_at : Int) : TaskRow :=
  { r with worker_id := some worker_id, status := .dispatched,
           updated_at := updated_at }

/-- Source `Database::dispatch_task` (src/database.rs:126-152): conditional update
`where id = $3 and status = 'pending'`, returning whether a row was
affected (`returning id` / `fetch_optional` / `row.is_some()`). -/
def dispatch_task (tasks : List TaskRow) (task_id worker_id : Nat)
    (updated_at : Int) : List TaskRow × Bool :=
  (tasks.map fun r =>
      if r.id = task_id ∧ r.status = .pending then
        dispatchRow r worker_id updated_at
      else r,
   tasks.any fun r => decide (r.id = task_id ∧ r.status = .pending))

/-- Row update performed by `Database::complete_task`'s SQL
(`set status = $1::task_status, updated_at = $2`). -/
def completeRow (r : TaskRow) (succeeded : Bool) (updated_at : Int) : TaskRow :=
  { r with status := if succeeded then .succeeded else .failed,
           updated_at := updated_at }

/-- Source `Database::complete_task` (src/database.rs:183-209): conditional update
`where id = $3 and status in ('running', 'interrupted')`; the affected-row
count is ignored and the call always returns `Ok(())`, so the table is the
whole observable result. -/
def complete_task (tasks : List TaskRow) (id : Nat) (succeeded : Bool)
    (updated_at : Int) : List TaskRow :=
  tasks.map fun r =>
    if r.id = id ∧ (r.status = .running ∨ r.status = .interrupted) then
      completeRow r succeeded updated_at
    else r

end Database

/-! ## Worker roster (src/supervisor/workers.rs) -/

/-- Status enum of `src/worker/status.rs` (`WorkerStatus`). -/
inductive WorkerStatus where
  | busy
  | idle
deriving DecidableEq, Repr

/-- Constant `HEARTBEAT_TIMEOUT` of `src/main.rs` (`Duration::from_secs(3)`),
in seconds. -/
def HEARTBEAT_TIMEOUT : Int := 3

/-- Key-ordered insert, the model of `BTreeMap::insert` on the roster's
`workers` map (iteration visits keys in ascending order). -/
def mapInsert (k : Nat) (v : Int) : List (Nat × Int) → List (Nat × Int)
  | [] => [(k, v)]
  | (k', v') :: rest =>
      if k < k' then (k, v) :: (k', v') :: rest
      else if k = k' then (k, v) :: rest
      else (k', v') :: mapInsert k v rest

/-- Ordered insert, the model of `BTreeSet::insert` on the idle-set. -/
def setInsert (k : Nat) : List Nat → List Nat
  | [] => [k]
  | k' :: rest =>
      if k < k' then k :: k' :: rest
      else if k = k' then k' :: rest
      else k' :: setInsert k rest

/-- In-memory roster of `src/supervisor/workers.rs` (`SupervisedWorkers`).
The `SupervisedWorker` value struct holds only `last_heard_at`, kept here
as the second component of each map entry. -/
structure SupervisedWorkers where
  workers : List (Nat × Int)
  idling_workers : List Nat
deriving DecidableEq, Repr

namespace SupervisedWorkers

/-- Source `SupervisedWorkers::default()`. -/
def default : SupervisedWorkers := ⟨[], []⟩

/-- Source `SupervisedWorkers::add` (src/supervisor/workers.rs:15-51):
`workers.insert(id, worker)` returning the previous value; only when the
worker was not seen before (`is_none()`) is the heartbeat's `status`
consulted, adding an `Idle` worker to the idle-set.  On later observations
the insert merely refreshes `last_heard_at` and `status` is ignored. -/
def add (s : SupervisedWorkers) (id : Nat) (status : WorkerStatus)
    (now : Int) : SupervisedWorkers :=
  if s.workers.any fun w => w.1 == id then
    { s with workers := mapInsert id now s.workers }
  else
    { workers := mapInsert id now s.workers,
      idling_workers :=
        match status with
        | .idle => setInsert id s.idling_workers
        | .busy => s.idling_workers }

/-- Source `SupervisedWorkers::mark_as_idle` (src/supervisor/workers.rs:53-55):
unconditionally `self.idling_workers.insert(id)`. -/
def mark_as_idle (s : SupervisedWorkers) (id : Nat) : SupervisedWorkers :=
  { s with idling_workers := setInsert id s.idling_workers }

/-- Expression `(now - worker.last_heard_at).to_std().unwrap_or_default()` of
`SupervisedWorkers::gc`: a negative chrono duration fails `to_std` and
defaults to zero. -/
def lastHeardIn (now last_heard_at : Int) : Int :=
  if now - last_heard_at < 0 then 0 else now - last_heard_at

/-- Source `SupervisedWorkers::gc` (src/supervisor/workers.rs:71-106): collect the
ids with `last_heard_in >= HEARTBEAT_TIMEOUT`, then remove each from both
the worker map and the idle-set. -/
def gc (s : SupervisedWorkers) (now : Int) : SupervisedWorkers :=
  let dead_worker_ids : List Nat :=
    (s.workers.filter fun w =>
        decide (HEARTBEAT_TIMEOUT ≤ lastHeardIn now w.2)).map Prod.fst
  { workers := s.workers.filter fun w => !dead_worker_ids.contains w.1,
    idling_workers :=
      s.idling_workers.filter fun i => !dead_worker_ids.contains i }

end SupervisedWorkers

/-! ## Pending-tasks queue (src/supervisor/tasks.rs) -/

/-- In-memory pending task (struct `PendingTask`).  The `at` field
(`Option<Pin<Box<Sleep>>>`) is represented by the sleep's deadline
`Instant`; `PendingTask::deadline()` reads it back. -/
structure PendingTask where
  atDeadline : Option Int
  id : Nat
deriving DecidableEq, Repr

namespace PendingTask

/-- Source `PendingTask::deadline()` (src/supervisor/tasks.rs:122-124). -/
def deadline (t : PendingTask) : Option Int := t.atDeadline

end PendingTask

/-- Comparison on `Int`, the model of `Ord` on `Instant`. -/
def cmpInt (x y : Int) : Ordering :=
  if x < y then .lt else if y < x then .gt else .eq

/-- Comparison on `Nat`, the model of `Ord` on `TaskId` (UUID). -/
def cmpNat (x y : Nat) : Ordering :=
  if x < y then .lt else if y < x then .gt else .eq

/-- Derived `Ord` on `Option<Instant>`: `None` is least. -/
def cmpOptInt : Option Int → Option Int → Ordering
  | none, none => .eq
  | none, some _ => .lt
  | some _, none => .gt
  | some x, some y => cmpInt x y

namespace PendingTask

/-- Source `Ord for PendingTask` (src/supervisor/tasks.rs:143-156):
`other.deadline().cmp(&self.deadline()).then_with(|| self.id.cmp(&other.id))`
— deadlines reversed (so the max-heap pops the earliest deadline first,
`None` before any `Some`), ids not reversed (so among equal deadlines the
greatest id pops first). -/
def cmp (a b : PendingTask) : Ordering :=
  (cmpOptInt b.deadline a.deadline).then (cmpNat a.id b.id)

end PendingTask

/-- Max-selection from a non-empty collection per `PendingTask::cmp`: the
contract of `BinaryHeap::peek_mut`/`pop`.  Returns the greatest element
and the remaining elements. -/
def selectMax : PendingTask → List PendingTask → PendingTask × List PendingTask
  | t, [] => (t, [])
  | t, u :: us =>
      let p := selectMax u us
      if (PendingTask.cmp t p.1).isLT then (p.1, t :: p.2) else (t, u :: us)

/-- The queue component (struct `PendingTasks`).  The `tasks : BinaryHeap`
is modelled as the list of its elements (popping is `selectMax`); the
`waker` field is omitted (see the file header). -/
structure PendingTasks where
  tasks : List PendingTask
  is_active : Bool
deriving DecidableEq, Repr

namespace PendingTasks

/-- Source `PendingTasks::default()`: empty heap, `is_active = false`. -/
def default : PendingTasks := ⟨[], false⟩

/-- Source `PendingTasks::push` (src/supervisor/tasks.rs:39-54):
`scheduled_at.and_then(|at| (at - now).to_std().ok()).map(time::sleep)` —
`to_std` fails on a negative duration, so a `scheduled_at` before `now`
(or absent) yields no sleep; otherwise the sleep's deadline is
`scheduled_at` itself (monotonic clock identified with `now`'s clock). -/
def push (s : PendingTasks) (id : Nat) (scheduled_at : Option Int)
    (now : Int) : PendingTasks :=
  { s with tasks :=
      { atDeadline := scheduled_at.bind fun at_ =>
          if now ≤ at_ then some at_ else none,
        id := id } :: s.tasks }

/-- Source `PendingTasks::pause` (src/supervisor/tasks.rs:61-63). -/
def pause (s : PendingTasks) : PendingTasks := { s with is_active := false }

/-- Source `PendingTasks::resume` (src/supervisor/tasks.rs:65-71). -/
def resume (s : PendingTasks) : PendingTasks := { s with is_active := true }

/-- Source `Future::poll for PendingTasks` (src/supervisor/tasks.rs:77-108) at
monotonic instant `now`: when inactive, `Poll::Pending` (the stored waker
is not modelled); otherwise peek the heap max; an absent sleep is ready
at once, a sleep is ready when its deadline has passed (`now ≥ deadline`);
only a ready head is popped. -/
def poll (s : PendingTasks) (now : Int) : Option Nat × PendingTasks :=
  if !s.is_active then (none, s)
  else
    match s.tasks with
    | [] => (none, s)
    | t :: ts =>
        let p := selectMax t ts
        match p.1.atDeadline with
        | none => (some p.1.id, { s with tasks := p.2 })
        | some d =>
            if d ≤ now then (some p.1.id, { s with tasks := p.2 })
            else (none, s)

/-- Iterated `poll` at the given sequence of instants, collecting every
poll's result. -/
def pollSeq : PendingTasks → List Int → List (Option Nat) × PendingTasks
  | s, [] => ([], s)
  | s, now :: rest =>
      let r := poll s now
      let q := pollSeq r.2 rest
      (r.1 :: q.1, q.2)

end PendingTasks

/-- Fuelled heap drain: repeatedly remove the element `BinaryHeap::pop`
would return.  `drain` below supplies enough fuel to empty the heap. -/
def drainAux : Nat → List PendingTask → List PendingTask
  | 0, _ => []
  | _ + 1, [] => []
  | fuel + 1, t :: ts =>
      let p := selectMax t ts
      p.1 :: drainAux fuel p.2

/-- Pop-order of the heap's contents. -/
def drain (l : List PendingTask) : List PendingTask := drainAux l.length l

/-- Fuelled iteration of `PendingTasks::poll` at a fixed instant, keeping
only yielded task ids; stops at the first poll that yields nothing. -/
def pollDrainAux : Nat → PendingTasks → Int → List Nat
  | 0, _, _ => []
  | fuel + 1, s, now =>
      match PendingTasks.poll s now with
      | (some i, s') => i :: pollDrainAux fuel s' now
      | (none, _) => []

/-- Task ids yielded by polling the queue repeatedly at instant `now`. -/
def pollDrain (s : PendingTasks) (now : Int) : List Nat :=
  pollDrainAux s.tasks.length s now

/-- Readiness of a pending task at monotonic instant `now`: no sleep, or
an elapsed sleep. -/
def readyAt (t : PendingTask) (now : Int) : Bool :=
  match t.atDeadline with
  | none => true
  | some d => decide (d ≤ now)

/-- Strict order on `Option Int` matching the derived Rust `Ord` on
`Option<Instant>`: `None` below every `Some`. -/
def optLt : Option Int → Option Int → Prop
  | none, none => False
  | none, some _ => True
  | some _, none => False
  | some x, some y => x < y

instance : DecidableRel optLt := fun a b => by
  cases a <;> cases b <;> simp [optLt] <;> infer_instance

/-- The pop-priority order actually implemented by the source `Ord`:
`a` pops no later than `b` iff `a`'s deadline is earlier (`None` first),
or deadlines are equal and `a`'s id is the larger. -/
def popsBefore (a b : PendingTask) : Prop :=
  optLt a.deadline b.deadline ∨ (a.deadline = b.deadline ∧ b.id ≤ a.id)

instance : DecidableRel popsBefore := fun a b => by
  unfold popsBefore; infer_instance

/-! ## Notifications (src/supervisor/notification.rs, src/worker/notification.rs) -/

/-- JSON value type for the notification payloads.  The `uuid` and
`datetime` leaves stand for the serde codecs of the out-of-repo `uuid`
and `chrono` crates (injective scalar encodings); the repository code
under check is the tagged-union layout around them. -/
inductive Json where
  | null
  | str (s : String)
  | uuid (n : Nat)
  | datetime (t : Int)
  | obj (fields : List (String × Json))

/-- Field lookup in a JSON object. -/
def jLookup (fields : List (String × Json)) (k : String) : Option Json :=
  (fields.find? fun f => f.1 == k).map Prod.snd

/-- Serde encoding of `WorkerStatus` (`rename_all = "kebab-case"`). -/
def encodeWorkerStatus : WorkerStatus → Json
  | .busy => .str "busy"
  | .idle => .str "idle"

/-- Serde decoding of `WorkerStatus`. -/
def decodeWorkerStatus : Json → Option WorkerStatus
  | .str "busy" => some .busy
  | .str "idle" => some .idle
  | _ => none

/-- Enum `SupervisorNotification` (src/supervisor/notification.rs:10-32):
`WorkerHeartbeat { id, status }`, `WorkerIdle { id }`,
`TaskCreated { id, scheduled_at }`. -/
inductive SupervisorNotification where
  | workerHeartbeat (id : Nat) (status : WorkerStatus)
  | workerIdle (id : Nat)
  | taskCreated (id : Nat) (scheduled_at : Option Int)
deriving DecidableEq, Repr

/-- Enum `WorkerNotification` (src/worker/notification.rs:9-14):
`TaskDispatched { id }`. -/
inductive WorkerNotification where
  | taskDispatched (id : Nat)
deriving DecidableEq, Repr

/-- Serde encoding of `SupervisorNotification`:
`#[serde(rename_all = "kebab-case")] #[serde(tag = "ty")]` — an internally
tagged object whose `ty` field is the kebab-cased variant name. -/
def encodeSupervisor : SupervisorNotification → Json
  | .workerHeartbeat id status =>
      .obj [("ty", .str "worker-heartbeat"), ("id", .uuid id),
            ("status", encodeWorkerStatus status)]
  | .workerIdle id =>
      .obj [("ty", .str "worker-idle"), ("id", .uuid id)]
  | .taskCreated id scheduled_at =>
      .obj [("ty", .str "task-created"), ("id", .uuid id),
            ("scheduled_at",
              match scheduled_at with
              | some t => .datetime t
              | none => .null)]

/-- Serde decoding of `SupervisorNotification`: dispatch on the `ty` tag,
then read the variant's fields by name (a missing `Option` field decodes
as `None`, serde's default for `Option`). -/
def decodeSupervisor (j : Json) : Option SupervisorNotification :=
  match j with
  | .obj fs =>
      match jLookup fs "ty" with
      | some (.str "worker-heartbeat") =>
          match jLookup fs "id", jLookup fs "status" with
          | some (.uuid i), some s =>
              match decodeWorkerStatus s with
              | some st => some (.workerHeartbeat i st)
              | none => none
          | _, _ => none
      | some (.str "worker-idle") =>
          match jLookup fs "id" with
          | some (.uuid i) => some (.workerIdle i)
          | _ => none
      | some (.str "task-created") =>
          match jLookup fs "id" with
          | some (.uuid i) =>
              match jLookup fs "scheduled_at" with
              | some (.datetime t) => some (.taskCreated i (some t))
              | some .null => some (.taskCreated i none)
              | none => some (.taskCreated i none)
              | some _ => none
          | _ => none
      | _ => none
  | _ => none

/-- Serde encoding of `WorkerNotification` (same tagged-union layout). -/
def encodeWorker : WorkerNotification → Json
  | .taskDispatched id =>
      .obj [("ty", .str "task-dispatched"), ("id", .uuid id)]

/-- Serde decoding of `WorkerNotification`. -/
def decodeWorker (j : Json) : Option WorkerNotification :=
  match j with
  | .obj fs =>
      match jLookup fs "ty" with
      | some (.str "task-dispatched") =>
          match jLookup fs "id" with
          | some (.uuid i) => some (.taskDispatched i)
          | _ => none
      | _ => none
  | _ => none

/-! ## Operation sequences on the queue -/

/-- Client operations on `PendingTasks` that do not resume it: pushes and
polls.  Used to state that a never-resumed queue yields nothing. -/
inductive QOp where
  | push (id : Nat) (scheduled_at : Option Int) (now : Int)
  | poll (now : Int)
deriving DecidableEq, Repr

/-- Run a sequence of `QOp`s, collecting each poll's result. -/
def runQOps : PendingTasks → List QOp → List (Option Nat) × PendingTasks
  | s, [] => ([], s)
  | s, QOp.push i sc n :: rest => runQOps (s.push i sc n) rest
  | s, QOp.poll now :: rest =>
      let r := s.poll now
      let q := runQOps r.2 rest
      (r.1 :: q.1, q.2)

/-- One `push` call: `(id, scheduled_at, now)`. -/
def PushCall := Nat × Option Int × Int

/-- Apply a list of `push` calls in order. -/
def applyPushes : PendingTasks → List PushCall → PendingTasks
  | s, [] => s
  | s, (i, sc, n) :: rest => applyPushes (s.push i sc n) rest

/-- A push whose delay `scheduled_at - now` is non-positive (or whose
`scheduled_at` is absent) — what claim C2 calls "ready immediately". -/
def nonPosDelay : PushCall → Prop
  | (_, none, _) => True
  | (_, some at_, now) => at_ ≤ now

instance : DecidablePred nonPosDelay := fun p => by
  obtain ⟨i, sc, n⟩ := p; cases sc <;> simp [nonPosDelay] <;> infer_instance

/-- Claim C2's ordering statement, specialised to push sequences in which
every task is "ready immediately" (non-positive delay): all such tasks are
tied, so the queue must yield them in an order given by a fixed, total
comparison of their task ids alone. -/
def claimC2TieByTaskId : Prop :=
  ∃ tie : Nat → Nat → Bool,
    (∀ a b : Nat, a ≠ b → (tie a b = true ↔ tie b a = false)) ∧
    ∀ (ps : List PushCall) (now : Int),
      (∀ p ∈ ps, nonPosDelay p) →
      (pollDrain (applyPushes (PendingTasks.resume PendingTasks.default) ps)
          now).Pairwise fun a b => tie a b = true

/-! ## Helper lemmas: the pop order -/

theorem optLt_trans {a b c : Option Int} (h1 : optLt a b) (h2 : optLt b c) :
    optLt a c := by
  cases a <;> cases b <;> cases c <;> simp_all [optLt]
  omega

theorem popsBefore_refl (a : PendingTask) : popsBefore a a :=
  Or.inr ⟨rfl, le_refl _⟩

theorem popsBefore_trans {a b c : PendingTask} (h1 : popsBefore a b)
    (h2 : popsBefore b c) : popsBefore a c := by
  rcases a with ⟨da, ia⟩; rcases b with ⟨db, ib⟩; rcases c with ⟨dc, ic⟩
  simp only [popsBefore, PendingTask.deadline] at *
  cases da <;> cases db <;> cases dc <;>
    simp_all [optLt] <;> omega

theorem not_cmp_isLT_iff (a b : PendingTask) :
    ¬(PendingTask.cmp a b).isLT = true ↔ popsBefore a b := by
  rcases a with ⟨da, ia⟩; rcases b with ⟨db, ib⟩
  cases da <;> cases db <;>
    simp_all [PendingTask.cmp, PendingTask.deadline, cmpOptInt, cmpInt,
      cmpNat, Ordering.then, popsBefore, optLt, Ordering.isLT] <;>
    (try split_ifs) <;> simp_all [Ordering.isLT] <;> omega

theorem cmp_isLT_imp {a b : PendingTask}
    (h : (PendingTask.cmp a b).isLT = true) : popsBefore b a := by
  rcases a with ⟨da, ia⟩; rcases b with ⟨db, ib⟩
  cases da <;> cases db <;>
    simp_all [PendingTask.cmp, PendingTask.deadline, cmpOptInt, cmpInt,
      cmpNat, Ordering.then, popsBefore, optLt, Ordering.isLT] <;>
    (try split_ifs at h) <;> simp_all <;> omega

/-! ## Helper lemmas: max selection and draining -/

theorem selectMax_length (t : PendingTask) (ts : List PendingTask) :
    (selectMax t ts).2.length = ts.length := by
  induction ts generalizing t with
  | nil => rfl
  | cons u us ih =>
      simp only [selectMax]
      split
      · simpa using ih u
      · rfl

theorem selectMax_perm (t : PendingTask) (ts : List PendingTask) :
    List.Perm ((selectMax t ts).1 :: (selectMax t ts).2) (t :: ts) := by
  induction ts generalizing t with
  | nil => rfl
  | cons u us ih =>
      simp only [selectMax]
      split
      · exact ((List.Perm.swap t _ _).trans ((ih u).cons t)).symm.symm
      · rfl

theorem selectMax_ge (t : PendingTask) (ts : List PendingTask) :
    ∀ x ∈ t :: ts, popsBefore (selectMax t ts).1 x := by
  induction ts generalizing t with
  | nil =>
      intro x hx
      simp only [List.mem_singleton] at hx
      subst hx
      exact popsBefore_refl _
  | cons u us ih =>
      intro x hx
      simp only [selectMax]
      split
      case isTrue h =>
        rcases List.mem_cons.mp hx with rfl | hx'
        · exact cmp_isLT_imp h
        · exact ih u x hx'
      case isFalse h =>
        rcases List.mem_cons.mp hx with rfl | hx'
        · exact popsBefore_refl x
        · exact popsBefore_trans ((not_cmp_isLT_iff t _).mp h) (ih u x hx')

theorem drainAux_spec :
    ∀ (fuel : Nat) (l : List PendingTask), l.length ≤ fuel →
      List.Perm (drainAux fuel l) l ∧ (drainAux fuel l).Pairwise popsBefore := by
  intro fuel
  induction fuel with
  | zero =>
      intro l hl
      rw [List.length_eq_zero.mp (Nat.le_zero.mp hl)]
      exact ⟨List.Perm.refl _, List.Pairwise.nil⟩
  | succ f ih =>
      intro l hl
      match l with
      | [] => exact ⟨List.Perm.refl _, List.Pairwise.nil⟩
      | t :: ts =>
          simp only [drainAux]
          have hlen : (selectMax t ts).2.length ≤ f := by
            rw [selectMax_length]
            simpa using hl
          obtain ⟨hperm, hsorted⟩ := ih (selectMax t ts).2 hlen
          constructor
          · exact (hperm.cons _).trans (selectMax_perm t ts)
          · refine List.Pairwise.cons ?_ hsorted
            intro x hx
            have hx2 : x ∈ (selectMax t ts).2 := hperm.mem_iff.mp hx
            have : x ∈ t :: ts :=
              (selectMax_perm t ts).mem_iff.mp (List.mem_cons_of_mem _ hx2)
            exact selectMax_ge t ts x this

theorem drain_perm (l : List PendingTask) : List.Perm (drain l) l :=
  (drainAux_spec l.length l le_rfl).1

theorem drain_sorted (l : List PendingTask) :
    (drain l).Pairwise popsBefore :=
  (drainAux_spec l.length l le_rfl).2

/-! ## Helper lemmas: polling -/

theorem poll_inactive {s : PendingTasks} (now : Int)
    (h : s.is_active = false) : s.poll now = (none, s) := by
  simp [PendingTasks.poll, h]

theorem poll_ready {s : PendingTasks} {t : PendingTask}
    {ts : List PendingTask} (now : Int) (hact : s.is_active = true)
    (htasks : s.tasks = t :: ts)
    (hready : readyAt (selectMax t ts).1 now = true) :
    s.poll now =
      (some (selectMax t ts).1.id, { s with tasks := (selectMax t ts).2 }) := by
  unfold PendingTasks.poll
  rw [hact, htasks]
  simp only [Bool.not_true, Bool.false_eq_true, if_false]
  unfold readyAt at hready
  cases hdl : (selectMax t ts).1.atDeadline with
  | none => simp [hdl]
  | some d =>
      rw [hdl] at hready
      simp only [decide_eq_true_eq] at hready
      simp [hdl, hready]

theorem poll_none_frame (s : PendingTasks) (now : Int)
    (h : (s.poll now).1 = none) : (s.poll now).2 = s := by
  cases hact : s.is_active
  case false => simp [PendingTasks.poll, hact]
  case true =>
    cases htasks : s.tasks
    case nil => simp [PendingTasks.poll, hact, htasks]
    case cons t ts =>
      simp only [PendingTasks.poll, hact, htasks, Bool.not_true,
        Bool.false_eq_true, if_false] at h ⊢
      cases hdl : (selectMax t ts).1.atDeadline
      case none => simp [hdl] at h
      case some d =>
        simp only [hdl] at h ⊢
        split_ifs at h ⊢ with hcond
        all_goals simp_all

theorem poll_active (s : PendingTasks) (now : Int) :
    ((s.poll now).2).is_active = s.is_active := by
  cases hact : s.is_active
  case false => simp [PendingTasks.poll, hact]
  case true =>
    cases htasks : s.tasks
    case nil => simp [PendingTasks.poll, hact, htasks]
    case cons t ts =>
      simp only [PendingTasks.poll, hact, htasks, Bool.not_true,
        Bool.false_eq_true, if_false]
      cases hdl : (selectMax t ts).1.atDeadline
      case none => simp [hact]
      case some d =>
        simp only [hdl]
        split_ifs <;> simp [hact]

theorem pollDrainAux_eq_drainAux :
    ∀ (fuel : Nat) (s : PendingTasks) (now : Int),
      s.is_active = true →
      (∀ t ∈ s.tasks, readyAt t now = true) →
      s.tasks.length ≤ fuel →
      pollDrainAux fuel s now = (drainAux fuel s.tasks).map PendingTask.id := by
  intro fuel
  induction fuel with
  | zero => intro s now _ _ _; rfl
  | succ f ih =>
      intro s now hact hready hlen
      cases htasks : s.tasks with
      | nil =>
          have : s.poll now = (none, s) := by
            unfold PendingTasks.poll
            rw [hact, htasks]
            rfl
          simp [pollDrainAux, drainAux, this, htasks]
      | cons t ts =>
          have hmax : (selectMax t ts).1 ∈ t :: ts :=
            (selectMax_perm t ts).mem_iff.mp (List.mem_cons_self _ _)
          have hmaxready : readyAt (selectMax t ts).1 now = true := by
            apply hready
            rw [htasks]; exact hmax
          have hpoll := poll_ready now hact htasks hmaxready
          have hrest : ∀ x ∈ (selectMax t ts).2, readyAt x now = true := by
            intro x hx
            apply hready
            rw [htasks]
            exact (selectMax_perm t ts).mem_iff.mp (List.mem_cons_of_mem _ hx)
          have hlen2 : (selectMax t ts).2.length ≤ f := by
            rw [selectMax_length]
            rw [htasks] at hlen
            simpa using hlen
          simp only [pollDrainAux, hpoll, htasks, drainAux, List.map_cons]
          congr 1
          exact ih { s with tasks := (selectMax t ts).2 } now hact hrest hlen2

theorem pollDrain_eq_drain (s : PendingTasks) (now : Int)
    (hact : s.is_active = true)
    (hready : ∀ t ∈ s.tasks, readyAt t now = true) :
    pollDrain s now = (drain s.tasks).map PendingTask.id :=
  pollDrainAux_eq_drainAux s.tasks.length s now hact hready le_rfl

/-! ## Helper lemmas: the roster -/

theorem stale_iff (now t : Int) :
    HEARTBEAT_TIMEOUT ≤ SupervisedWorkers.lastHeardIn now t ↔
      t ≤ now - HEARTBEAT_TIMEOUT := by
  unfold SupervisedWorkers.lastHeardIn HEARTBEAT_TIMEOUT
  split <;> omega

theorem mem_deadIds {l : List (Nat × Int)} {now : Int} {i : Nat} :
    i ∈ (l.filter fun w =>
        decide (HEARTBEAT_TIMEOUT ≤ SupervisedWorkers.lastHeardIn now w.2)).map
        Prod.fst ↔
      ∃ t, (i, t) ∈ l ∧ t ≤ now - HEARTBEAT_TIMEOUT := by
  simp only [List.mem_map, List.mem_filter, decide_eq_true_eq, stale_iff]
  constructor
  · rintro ⟨⟨a, b⟩, ⟨hmem, hst⟩, rfl⟩
    exact ⟨b, hmem, hst⟩
  · rintro ⟨t, hmem, hst⟩
    exact ⟨(i, t), ⟨hmem, hst⟩, rfl⟩

theorem nodupKeys_eq {l : List (Nat × Int)}
    (h : (l.map Prod.fst).Nodup) {w w' : Nat × Int}
    (hw : w ∈ l) (hw' : w' ∈ l) (heq : w.1 = w'.1) : w = w' := by
  induction l with
  | nil => cases hw
  | cons x xs ih =>
      simp only [List.map_cons, List.nodup_cons] at h
      rcases List.mem_cons.mp hw with rfl | hw2 <;>
        rcases List.mem_cons.mp hw' with rfl | hw2'
      · rfl
      · exact absurd (heq ▸ List.mem_map_of_mem Prod.fst hw2') h.1
      · exact absurd (heq ▸ List.mem_map_of_mem Prod.fst hw2) h.1
      · exact ih h.2 hw2 hw2'

theorem mapInsert_mem_self (k : Nat) (v : Int) (l : List (Nat × Int)) :
    (k, v) ∈ mapInsert k v l := by
  induction l with
  | nil => simp [mapInsert]
  | cons x xs ih =>
      obtain ⟨k', v'⟩ := x
      simp only [mapInsert]
      split_ifs with h1 h2
      · exact List.mem_cons_self _ _
      · exact List.mem_cons_self _ _
      · exact List.mem_cons_of_mem _ ih

theorem mapInsert_mem_other {w : Nat × Int} {l : List (Nat × Int)}
    (k : Nat) (v : Int) (hw : w ∈ l) (hne : w.1 ≠ k) :
    w ∈ mapInsert k v l := by
  induction l with
  | nil => cases hw
  | cons x xs ih =>
      obtain ⟨k', v'⟩ := x
      simp only [mapInsert]
      rcases List.mem_cons.mp hw with rfl | hw2
      · split_ifs with h1 h2
        · exact List.mem_cons_of_mem _ (List.mem_cons_self _ _)
        · exact absurd h2.symm hne
        · exact List.mem_cons_self _ _
      · split_ifs with h1 h2
        · exact List.mem_cons_of_mem _ (List.mem_cons_of_mem _ hw2)
        · exact List.mem_cons_of_mem _ hw2
        · exact List.mem_cons_of_mem _ (ih hw2)

theorem any_key_iff (l : List (Nat × Int)) (id : Nat) :
    (l.any fun w => w.1 == id) = true ↔ ∃ t, (id, t) ∈ l := by
  simp only [List.any_eq_true, beq_iff_eq]
  constructor
  · rintro ⟨⟨a, b⟩, hmem, rfl⟩
    exact ⟨b, hmem⟩
  · rintro ⟨t, hmem⟩
    exact ⟨(id, t), hmem, rfl⟩

theorem setInsert_mem_of_sorted {l : List Nat} (k : Nat)
    (hs : l.Pairwise (· < ·)) (hk : k ∈ l) : setInsert k l = l := by
  induction l with
  | nil => cases hk
  | cons x xs ih =>
      simp only [setInsert]
      rcases List.mem_cons.mp hk with rfl | hk2
      · simp
      · have hlt : x < k := (List.pairwise_cons.mp hs).1 k hk2
        rw [if_neg (by omega), if_neg (by omega)]
        rw [ih (List.pairwise_cons.mp hs).2 hk2]

/-! ## Claims C3-C6: the worker roster -/

theorem gc_workers_mem (s : SupervisedWorkers) (now : Int)
    (hkeys : (s.workers.map Prod.fst).Nodup) (w : Nat × Int) :
    w ∈ (s.gc now).workers ↔
      w ∈ s.workers ∧ now - HEARTBEAT_TIMEOUT < w.2 := by
  simp only [SupervisedWorkers.gc, List.mem_filter, List.elem_eq_mem,
    Bool.not_eq_eq_eq_not, Bool.not_true, decide_eq_false_iff_not,
    mem_deadIds]
  constructor
  · rintro ⟨hmem, hno⟩
    refine ⟨hmem, ?_⟩
    by_contra hle
    exact hno ⟨w.2, by simpa using hmem, by omega⟩
  · rintro ⟨hmem, hfresh⟩
    refine ⟨hmem, ?_⟩
    rintro ⟨t, hmem', hst⟩
    have : w = (w.1, t) := nodupKeys_eq hkeys hmem hmem' rfl
    rw [this] at hfresh
    simp at hfresh
    omega

theorem gc_idling_mem (s : SupervisedWorkers) (now : Int) (i : Nat) :
    i ∈ (s.gc now).idling_workers ↔
      i ∈ s.idling_workers ∧
        ∀ t, (i, t) ∈ s.workers → now - HEARTBEAT_TIMEOUT < t := by
  simp only [SupervisedWorkers.gc, List.mem_filter, List.elem_eq_mem,
    Bool.not_eq_eq_eq_not, Bool.not_true, decide_eq_false_iff_not,
    mem_deadIds]
  constructor
  · rintro ⟨hmem, hno⟩
    refine ⟨hmem, fun t ht => ?_⟩
    by_contra hle
    exact hno ⟨t, ht, by omega⟩
  · rintro ⟨hmem, hfresh⟩
    refine ⟨hmem, ?_⟩
    rintro ⟨t, ht, hst⟩
    have := hfresh t ht
    omega

/-- C3: `roster.gc(now)` removes exactly the workers whose `last_heard_at`
is at most `now − HEARTBEAT_TIMEOUT` (3 s): each such worker leaves both
the worker map and the idle-set, and every worker heard from more
recently keeps its map entry (and idle-set membership) unchanged. -/
theorem C3_gc_removes_exactly_stale (s : SupervisedWorkers) (now : Int)
    (hkeys : (s.workers.map Prod.fst).Nodup) :
    (∀ w ∈ s.workers, w.2 ≤ now - HEARTBEAT_TIMEOUT →
        w ∉ (s.gc now).workers ∧ w.1 ∉ (s.gc now).idling_workers)
    ∧ (∀ w, w ∈ (s.gc now).workers ↔
        w ∈ s.workers ∧ now - HEARTBEAT_TIMEOUT < w.2)
    ∧ (∀ i, i ∈ (s.gc now).idling_workers ↔
        i ∈ s.idling_workers ∧
          ∀ t, (i, t) ∈ s.workers → now - HEARTBEAT_TIMEOUT < t) := by
  refine ⟨?_, gc_workers_mem s now hkeys, gc_idling_mem s now⟩
  intro w hmem hstale
  constructor
  · intro hin
    have := (gc_workers_mem s now hkeys w).mp hin
    omega
  · intro hin
    have := ((gc_idling_mem s now w.1).mp hin).2 w.2 (by simpa using hmem)
    omega

/-- C3 witness: on the roster `{1 ↦ 100, 2 ↦ 104}` with `now = 105`,
worker 1 (5 s stale) is removed from map and idle-set and worker 2 (1 s
stale) survives. -/
theorem C3_gc_witness :
    ((1, 100) ∉
        ((SupervisedWorkers.mk [(1, 100), (2, 104)] [1, 2]).gc 105).workers
      ∧ 1 ∉
        ((SupervisedWorkers.mk [(1, 100), (2, 104)] [1, 2]).gc
            105).idling_workers)
    ∧ (2, 104) ∈
        ((SupervisedWorkers.mk [(1, 100), (2, 104)] [1, 2]).gc 105).workers :=
  ⟨(C3_gc_removes_exactly_stale (SupervisedWorkers.mk [(1, 100), (2, 104)]
        [1, 2]) 105 (by decide)).1 (1, 100) (by decide) (by decide),
   ((C3_gc_removes_exactly_stale (SupervisedWorkers.mk [(1, 100), (2, 104)]
        [1, 2]) 105 (by decide)).2.1 (2, 104)).mpr ⟨by decide, by decide⟩⟩

/-- C4: the §8 Worker-GC scenario, evaluated on the code.  Workers 1, 2, 3
are first heard at 12:00:06, 12:00:00 and 12:00:12 (seconds of day 43206,
43200, 43212).  With `HEARTBEAT_TIMEOUT = 3 s`, `gc` at 12:00:10 (43210)
removes BOTH w1 (4 s stale) and w2 (10 s stale), so the roster keys are
`[3]` — not `[1, 3]` as the claim (and the repository's own test
`workers::tests::gc`) expects. -/
theorem C4_gc_scenario_keys :
    ((((SupervisedWorkers.default.add 1 .idle 43206).add 2 .idle
          43200).add 3 .idle 43212).gc 43210).workers.map Prod.fst = [3]
    ∧ ((((SupervisedWorkers.default.add 1 .idle 43206).add 2 .idle
          43200).add 3 .idle 43212).gc 43210).workers.map Prod.fst ≠
        [1, 3] := by
  constructor <;> decide

/-- C5 counterexample: `mark_as_idle` on an id that is not in the worker
map is NOT a no-op — the unknown id is inserted into the idle-set, so the
roster state changes. -/
theorem C5_mark_as_idle_counterexample :
    (SupervisedWorkers.mk [] []).mark_as_idle 5 ≠ SupervisedWorkers.mk [] []
    ∧ ((SupervisedWorkers.mk [] []).mark_as_idle 5).idling_workers = [5] := by
  constructor <;> decide

/-- C5 (amended): `mark_as_idle(id)` inserts `id` into the idle-set
unconditionally — whether or not the id is in the worker map — leaving the
worker map untouched; it is a no-op exactly when the id is already in the
idle-set. -/
theorem C5_mark_as_idle_amended (s : SupervisedWorkers) (id : Nat) :
    (s.mark_as_idle id).workers = s.workers
    ∧ (s.mark_as_idle id).idling_workers = setInsert id s.idling_workers
    ∧ (s.idling_workers.Pairwise (· < ·) → id ∈ s.idling_workers →
        s.mark_as_idle id = s) := by
  refine ⟨rfl, rfl, fun hs hk => ?_⟩
  unfold SupervisedWorkers.mark_as_idle
  rw [setInsert_mem_of_sorted id hs hk]

/-- C5 witness: marking the already-idle worker 4 as idle leaves the
roster unchanged. -/
theorem C5_mark_as_idle_witness :
    (SupervisedWorkers.mk [(4, 7)] [4]).mark_as_idle 4 =
      SupervisedWorkers.mk [(4, 7)] [4] :=
  (C5_mark_as_idle_amended (SupervisedWorkers.mk [(4, 7)] [4]) 4).2.2
    (by decide) (by decide)

/-- C6: `add(id, status, now)` on a worker that has already been observed
refreshes only that worker's `last_heard_at`: the idle-set is untouched,
every other map entry is untouched, and the result does not depend on the
heartbeat's `status` argument at all. -/
theorem C6_add_ignores_status_after_first (s : SupervisedWorkers) (id : Nat)
    (status status' : WorkerStatus) (now : Int)
    (hknown : ∃ t, (id, t) ∈ s.workers) :
    (s.add id status now).idling_workers = s.idling_workers
    ∧ (s.add id status now).workers = mapInsert id now s.workers
    ∧ (id, now) ∈ (s.add id status now).workers
    ∧ (∀ w ∈ s.workers, w.1 ≠ id → w ∈ (s.add id status now).workers)
    ∧ s.add id status now = s.add id status' now := by
  have hany : (s.workers.any fun w => w.1 == id) = true :=
    (any_key_iff s.workers id).mpr hknown
  unfold SupervisedWorkers.add
  rw [if_pos hany, if_pos hany]
  exact ⟨rfl, rfl, mapInsert_mem_self id now s.workers,
    fun w hw hne => mapInsert_mem_other id now hw hne, rfl⟩

/-- C6 witness: re-observing worker 1 (first heard at 10) with a `busy`
and separately with an `idle` heartbeat at 20 gives identical rosters,
keeps worker 2's entry, and leaves the idle-set `[1]` unchanged. -/
theorem C6_add_witness :
    ((SupervisedWorkers.mk [(1, 10), (2, 11)] [1]).add 1 .busy
          20).idling_workers = [1]
    ∧ (SupervisedWorkers.mk [(1, 10), (2, 11)] [1]).add 1 .busy 20 =
        (SupervisedWorkers.mk [(1, 10), (2, 11)] [1]).add 1 .idle 20 := by
  have h := C6_add_ignores_status_after_first
    (SupervisedWorkers.mk [(1, 10), (2, 11)] [1]) 1 .busy .idle 20
    ⟨10, by decide⟩
  exact ⟨h.1, h.2.2.2.2⟩

/-! ## Claims C1 and C7: the predicated database updates -/

theorem map_id_of_forall {α : Type} {l : List α} {f : α → α}
    (h : ∀ x ∈ l, f x = x) : l.map f = l := by
  induction l with
  | nil => rfl
  | cons x xs ih =>
      simp only [List.map_cons]
      rw [h x (List.mem_cons_self x xs),
        ih fun y hy => h y (List.mem_cons_of_mem x hy)]

theorem dispatch_task_post (tasks : List TaskRow) (task_id worker_id : Nat)
    (now : Int) :
    ∀ r ∈ (Database.dispatch_task tasks task_id worker_id now).1,
      ¬(r.id = task_id ∧ r.status = .pending) := by
  intro r hr
  simp only [Database.dispatch_task, List.mem_map] at hr
  obtain ⟨r0, _, rfl⟩ := hr
  split_ifs with hc
  · simp [Database.dispatchRow, hc.1]
  · exact hc

/-- C1: `dispatch_task(task_id, worker_id, now)` on a table of task rows:
a `pending` row with that id is updated to `dispatched` with `worker_id`
set and `updated_at = now` and the call reports "affected" (`true`); when
no `pending` row with that id exists (other status, or absent) the call
reports `false` and the table is left completely unchanged; consequently a
second identical call after a successful one reports `false`, changes
nothing, and the row stays `dispatched`. -/
theorem C1_dispatch_task_conditional (tasks : List TaskRow)
    (task_id worker_id : Nat) (now : Int) :
    ((Database.dispatch_task tasks task_id worker_id now).2 = true ↔
      ∃ r ∈ tasks, r.id = task_id ∧ r.status = .pending)
    ∧ (∀ r ∈ tasks, r.id = task_id → r.status = .pending →
        { r with worker_id := some worker_id, status := .dispatched,
                 updated_at := now } ∈
          (Database.dispatch_task tasks task_id worker_id now).1)
    ∧ (∀ r ∈ tasks, ¬(r.id = task_id ∧ r.status = .pending) →
        r ∈ (Database.dispatch_task tasks task_id worker_id now).1)
    ∧ ((¬∃ r ∈ tasks, r.id = task_id ∧ r.status = .pending) →
        (Database.dispatch_task tasks task_id worker_id now).1 = tasks ∧
          (Database.dispatch_task tasks task_id worker_id now).2 = false)
    ∧ ((Database.dispatch_task tasks task_id worker_id now).2 = true →
        ∃ r ∈ (Database.dispatch_task tasks task_id worker_id now).1,
          r.id = task_id ∧ r.status = .dispatched ∧
            r.worker_id = some worker_id ∧ r.updated_at = now)
    ∧ Database.dispatch_task
        (Database.dispatch_task tasks task_id worker_id now).1 task_id
        worker_id now =
      ((Database.dispatch_task tasks task_id worker_id now).1, false) := by
  have hpost := dispatch_task_post tasks task_id worker_id now
  simp only [Database.dispatch_task] at hpost ⊢
  refine ⟨?_, ?_, ?_, ?_, ?_, ?_⟩
  · simp [List.any_eq_true]
  · intro r hr hid hst
    exact List.mem_map.mpr ⟨r, hr, by
      simp [hid, hst, Database.dispatchRow]⟩
  · intro r hr hne
    exact List.mem_map.mpr ⟨r, hr, by rw [if_neg hne]⟩
  · intro hno
    constructor
    · apply map_id_of_forall
      intro r hr
      rw [if_neg fun hc => hno ⟨r, hr, hc⟩]
    · apply List.any_eq_false.mpr
      intro r hr
      simp only [decide_eq_true_eq]
      exact fun hc => hno ⟨r, hr, hc⟩
  · intro haff2
    obtain ⟨r, hr, hc⟩ := List.any_eq_true.mp haff2
    simp only [decide_eq_true_eq] at hc
    refine ⟨{ r with worker_id := some worker_id, status := .dispatched,
                     updated_at := now }, ?_, hc.1, rfl, rfl, rfl⟩
    exact List.mem_map.mpr ⟨r, hr, by
      simp [hc.1, hc.2, Database.dispatchRow]⟩
  · simp only [Prod.mk.injEq]
    constructor
    · apply map_id_of_forall
      intro r hr
      rw [if_neg (hpost r hr)]
    · apply List.any_eq_false.mpr
      intro r hr
      simp only [decide_eq_true_eq]
      exact hpost r hr

/-- C1 witness: a one-row table with pending task 1 — the dispatch
succeeds, rewrites the row, and the second identical call is a rejected
no-op. -/
theorem C1_dispatch_task_witness :
    (Database.dispatch_task [TaskRow.mk 1 .bar none .pending 50 50 none] 1 9
        60).2 = true
    ∧ TaskRow.mk 1 .bar (some 9) .dispatched 50 60 none ∈
        (Database.dispatch_task [TaskRow.mk 1 .bar none .pending 50 50 none]
            1 9 60).1
    ∧ Database.dispatch_task
        (Database.dispatch_task [TaskRow.mk 1 .bar none .pending 50 50 none]
            1 9 60).1 1 9 60 =
      ((Database.dispatch_task [TaskRow.mk 1 .bar none .pending 50 50 none]
            1 9 60).1, false) := by
  have h := C1_dispatch_task_conditional
    [TaskRow.mk 1 .bar none .pending 50 50 none] 1 9 60
  exact ⟨h.1.mpr ⟨TaskRow.mk 1 .bar none .pending 50 50 none, by decide,
      rfl, rfl⟩,
    h.2.1 (TaskRow.mk 1 .bar none .pending 50 50 none) (by decide) rfl rfl,
    h.2.2.2.2.2⟩

/-- C7: `complete_task(id, succeeded, now)` rewrites a row with that id in
status `running` or `interrupted` to `succeeded` (when `succeeded`) or
`failed` (otherwise) with `updated_at = now`; a row with any other status
(or a different id) is left completely unchanged — and when no row
qualifies the whole table is untouched (the call still succeeds). -/
theorem C7_complete_task_conditional (tasks : List TaskRow) (id : Nat)
    (succeeded : Bool) (now : Int) :
    (∀ r ∈ tasks, r.id = id →
        (r.status = .running ∨ r.status = .interrupted) →
        { r with status := if succeeded then .succeeded else .failed,
                 updated_at := now } ∈
          Database.complete_task tasks id succeeded now)
    ∧ (∀ r ∈ tasks,
        ¬(r.id = id ∧ (r.status = .running ∨ r.status = .interrupted)) →
        r ∈ Database.complete_task tasks id succeeded now)
    ∧ ((¬∃ r ∈ tasks,
          r.id = id ∧ (r.status = .running ∨ r.status = .interrupted)) →
        Database.complete_task tasks id succeeded now = tasks) := by
  simp only [Database.complete_task]
  refine ⟨?_, ?_, ?_⟩
  · intro r hr hid hst
    exact List.mem_map.mpr ⟨r, hr, by
      simp [hid, hst, Database.completeRow]⟩
  · intro r hr hne
    exact List.mem_map.mpr ⟨r, hr, by rw [if_neg hne]⟩
  · intro hno
    apply map_id_of_forall
    intro r hr
    rw [if_neg fun hc => hno ⟨r, hr, hc⟩]

/-- C7 witness: completing running task 1 with `succeeded = false` turns
it `failed` at time 70; the `succeeded` row 2 is untouched, and a
re-completion of an already-terminal table is the identity. -/
theorem C7_complete_task_witness :
    TaskRow.mk 1 .bar (some 9) .failed 50 70 none ∈
        Database.complete_task
          [TaskRow.mk 1 .bar (some 9) .running 50 60 none,
           TaskRow.mk 2 .foo (some 9) .succeeded 50 60 none] 1 false 70
    ∧ TaskRow.mk 2 .foo (some 9) .succeeded 50 60 none ∈
        Database.complete_task
          [TaskRow.mk 1 .bar (some 9) .running 50 60 none,
           TaskRow.mk 2 .foo (some 9) .succeeded 50 60 none] 1 false 70
    ∧ Database.complete_task
        [TaskRow.mk 2 .foo (some 9) .succeeded 50 60 none] 2 true 70 =
      [TaskRow.mk 2 .foo (some 9) .succeeded 50 60 none] := by
  have h := C7_complete_task_conditional
    [TaskRow.mk 1 .bar (some 9) .running 50 60 none,
     TaskRow.mk 2 .foo (some 9) .succeeded 50 60 none] 1 false 70
  have h2 := C7_complete_task_conditional
    [TaskRow.mk 2 .foo (some 9) .succeeded 50 60 none] 2 true 70
  refine ⟨h.1 (TaskRow.mk 1 .bar (some 9) .running 50 60 none) (by decide)
      rfl (Or.inl rfl),
    h.2.1 (TaskRow.mk 2 .foo (some 9) .succeeded 50 60 none) (by decide)
      (by decide),
    h2.2.2 ?_⟩
  rintro ⟨r, hr, hid, hst⟩
  simp only [List.mem_singleton] at hr
  subst hr
  rcases hst with hst | hst <;> simp at hst

/-! ## Claims C2, C8, C10: the pending-tasks queue -/

theorem pollSeq_paused :
    ∀ (times : List Int) (s : PendingTasks), s.is_active = false →
      (∀ o ∈ (PendingTasks.pollSeq s times).1, o = none) ∧
        (PendingTasks.pollSeq s times).2 = s := by
  intro times
  induction times with
  | nil => intro s h; exact ⟨by simp [PendingTasks.pollSeq], rfl⟩
  | cons now rest ih =>
      intro s h
      simp only [PendingTasks.pollSeq, poll_inactive now h]
      obtain ⟨ih1, ih2⟩ := ih s h
      refine ⟨fun o ho => ?_, ih2⟩
      rcases List.mem_cons.mp ho with rfl | ho2
      · rfl
      · exact ih1 o ho2

theorem runQOps_paused :
    ∀ (ops : List QOp) (s : PendingTasks), s.is_active = false →
      (∀ o ∈ (runQOps s ops).1, o = none) ∧
        ((runQOps s ops).2).is_active = false := by
  intro ops
  induction ops with
  | nil => intro s h; exact ⟨by simp [runQOps], h⟩
  | cons op rest ih =>
      intro s h
      cases op with
      | push i sc n =>
          simpa [runQOps] using ih (s.push i sc n) h
      | poll now =>
          simp only [runQOps, poll_inactive now h]
          obtain ⟨ih1, ih2⟩ := ih s h
          refine ⟨fun o ho => ?_, ih2⟩
          rcases List.mem_cons.mp ho with rfl | ho2
          · rfl
          · exact ih1 o ho2

/-- C2 (amended): `push` stores the task with deadline `scheduled_at` when
`scheduled_at ≥ now` and with no deadline when `scheduled_at` is absent or
strictly before `now`; repeatedly polling an active queue whose tasks are
all ready yields exactly the stored tasks (a permutation, nothing lost),
in ascending deadline order with no-deadline tasks first and ties between
equal deadlines broken deterministically by descending task id
(`popsBefore`). -/
theorem C2_queue_yield_order :
    (∀ (s : PendingTasks) (id : Nat) (scheduled_at : Option Int) (now : Int),
        (s.push id scheduled_at now).tasks =
          { atDeadline := scheduled_at.bind fun at_ =>
              if now ≤ at_ then some at_ else none,
            id := id } :: s.tasks)
    ∧ (∀ l : List PendingTask,
        List.Perm (drain l) l ∧ (drain l).Pairwise popsBefore)
    ∧ (∀ (s : PendingTasks) (now : Int), s.is_active = true →
        (∀ t ∈ s.tasks, readyAt t now = true) →
        pollDrain s now = (drain s.tasks).map PendingTask.id) :=
  ⟨fun _ _ _ _ => rfl, fun l => ⟨drain_perm l, drain_sorted l⟩,
   fun s now hact hready => pollDrain_eq_drain s now hact hready⟩

/-- C2 witness: the §8 queue-ordering seed.  At `now` = 12:00:00 (43200 s)
push ids 1..5 with scheduled times 13:00, none, 12:30, 10:00, none; once
every deadline has elapsed (poll at 13:00 = 46800 s) the active queue
yields `5, 4, 2, 3, 1`. -/
theorem C2_queue_yield_order_witness :
    (applyPushes (PendingTasks.resume PendingTasks.default)
        [(1, some 46800, 43200), (2, none, 43200), (3, some 45000, 43200),
         (4, some 36000, 43200), (5, none, 43200)]).is_active = true
    ∧ (∀ t ∈ (applyPushes (PendingTasks.resume PendingTasks.default)
        [(1, some 46800, 43200), (2, none, 43200), (3, some 45000, 43200),
         (4, some 36000, 43200), (5, none, 43200)]).tasks,
        readyAt t 46800 = true)
    ∧ pollDrain (applyPushes (PendingTasks.resume PendingTasks.default)
        [(1, some 46800, 43200), (2, none, 43200), (3, some 45000, 43200),
         (4, some 36000, 43200), (5, none, 43200)]) 46800 = [5, 4, 2, 3, 1] := by
  refine ⟨rfl, by decide, ?_⟩
  rw [C2_queue_yield_order.2.2 _ 46800 rfl (by decide)]
  decide

/-- C2 counterexample: the claim's tie rule is violated.  Pushing
`(1, none)` then `(2, scheduled_at = now)` — both "non-positive delay",
hence both "ready immediately" and tied per the claim — yields `1, 2`,
while pushing `(1, scheduled_at = now)` then `(2, none)` yields `2, 1`:
the relative order of two tied tasks is not determined by their task ids,
so no fixed id comparison can describe it. -/
theorem C2_tie_counterexample : ¬claimC2TieByTaskId := by
  rintro ⟨tie, htot, hall⟩
  have hA := hall [(1, none, 0), (2, some 0, 0)] 0 (by decide)
  have hB := hall [(1, some 0, 0), (2, none, 0)] 0 (by decide)
  have eA : pollDrain (applyPushes
      (PendingTasks.resume PendingTasks.default)
      [(1, none, 0), (2, some 0, 0)]) 0 = [1, 2] := by decide
  have eB : pollDrain (applyPushes
      (PendingTasks.resume PendingTasks.default)
      [(1, some 0, 0), (2, none, 0)]) 0 = [2, 1] := by decide
  rw [eA] at hA
  rw [eB] at hB
  have t12 : tie 1 2 = true := (List.pairwise_cons.mp hA).1 2 (by simp)
  have t21 : tie 2 1 = true := (List.pairwise_cons.mp hB).1 1 (by simp)
  have := (htot 1 2 (by decide)).mp t12
  simp_all

/-- C8: a paused queue never yields, whatever its contents and however
often it is polled, and those polls leave it exactly as it was; any poll
that yields nothing removes nothing (peek-then-pop); and once resumed the
queue still yields every queued task, in the pop order (deadline
ascending, no-deadline first, equal deadlines by descending id). -/
theorem C8_paused_never_yields_peek_then_pop :
    (∀ (s : PendingTasks) (times : List Int), s.is_active = false →
        (∀ o ∈ (PendingTasks.pollSeq s times).1, o = none) ∧
          (PendingTasks.pollSeq s times).2 = s)
    ∧ (∀ (s : PendingTasks) (now : Int), (s.poll now).1 = none →
        (s.poll now).2 = s)
    ∧ (∀ (s : PendingTasks) (now : Int),
        (∀ t ∈ s.tasks, readyAt t now = true) →
        pollDrain s.resume now = (drain s.tasks).map PendingTask.id
        ∧ List.Perm (drain s.tasks) s.tasks
        ∧ (drain s.tasks).Pairwise popsBefore) :=
  ⟨fun s times h => pollSeq_paused times s h,
   poll_none_frame,
   fun s now hready =>
     ⟨pollDrain_eq_drain s.resume now rfl hready,
      drain_perm s.tasks, drain_sorted s.tasks⟩⟩

/-- C8 witness: a paused queue holding ready tasks 7 (no deadline) and 3
(deadline 5) yields nothing over two polls and is left intact; the same
queue resumed yields `7, 3`. -/
theorem C8_paused_witness :
    (∀ o ∈ (PendingTasks.pollSeq
        (PendingTasks.mk [⟨none, 7⟩, ⟨some 5, 3⟩] false) [10, 20]).1,
        o = none)
    ∧ (PendingTasks.pollSeq
        (PendingTasks.mk [⟨none, 7⟩, ⟨some 5, 3⟩] false) [10, 20]).2 =
      PendingTasks.mk [⟨none, 7⟩, ⟨some 5, 3⟩] false
    ∧ pollDrain (PendingTasks.mk [⟨none, 7⟩, ⟨some 5, 3⟩] false).resume 20 =
        [7, 3] := by
  have h := C8_paused_never_yields_peek_then_pop
  refine ⟨(h.1 _ [10, 20] rfl).1, (h.1 _ [10, 20] rfl).2, ?_⟩
  rw [(h.2.2 (PendingTasks.mk [⟨none, 7⟩, ⟨some 5, 3⟩] false) 20
      (by decide)).1]
  decide

/-- C10: a freshly constructed (`Default`) pending-tasks queue is paused,
and stays paused under any sequence of pushes and polls (no `resume`), so
every such poll yields nothing — even when pushed tasks have elapsed or
absent deadlines. -/
theorem C10_default_starts_paused :
    PendingTasks.default.is_active = false
    ∧ ∀ ops : List QOp,
        (∀ o ∈ (runQOps PendingTasks.default ops).1, o = none)
        ∧ ((runQOps PendingTasks.default ops).2).is_active = false :=
  ⟨rfl, fun ops => runQOps_paused ops PendingTasks.default rfl⟩

/-- C10 witness: pushing task 1 with no deadline and task 2 with an
already-elapsed deadline into a default queue and polling twice yields
nothing. -/
theorem C10_default_witness :
    ((runQOps PendingTasks.default
        [QOp.push 1 none 100, QOp.push 2 (some 50) 100, QOp.poll 100,
         QOp.poll 200]).1.all fun o => o == none) = true
    ∧ ((runQOps PendingTasks.default
        [QOp.push 1 none 100, QOp.push 2 (some 50) 100, QOp.poll 100,
         QOp.poll 200]).2).is_active = false := by
  have h := C10_default_starts_paused
  refine ⟨List.all_eq_true.mpr fun o ho => ?_, (h.2 _).2⟩
  rw [(h.2 _).1 o ho]
  rfl

/-! ## Claim C9: notification JSON round-trip -/

/-- C9: decoding after encoding is the identity on every notification
variant — `WorkerHeartbeat`, `WorkerIdle`, `TaskCreated` (with and without
`scheduled_at`) and `TaskDispatched` — through the kebab-case `ty`-tagged
JSON layout. -/
theorem C9_notification_roundtrip :
    (∀ n : SupervisorNotification,
        decodeSupervisor (encodeSupervisor n) = some n)
    ∧ (∀ w : WorkerNotification, decodeWorker (encodeWorker w) = some w) := by
  constructor
  · intro n
    cases n with
    | workerHeartbeat id status => cases status <;> rfl
    | workerIdle id => rfl
    | taskCreated id scheduled_at => cases scheduled_at <;> rfl
  · intro w
    cases w
    rfl
